import Mathlib

/-!
Verification of the pairwise Morse-potential delta model
(`amptorch/delta_models/morse.py`) against its specification.

The numeric scalar type is an arbitrary linear ordered field `α`: exact
arithmetic standing in for the floating-point values of the source.  The
transcendental primitives used by the source (`np.exp`, `np.sqrt`) and the
constant `np.log(2)` are abstracted as a record `NumOps` of operations, so
every definition stays computable and the structural properties are proved
for every choice of these operations.

The class `morse_potential` is flattened: its read-only construction state
(`self.params`, `self.combo`, and the cached neighbor list) is passed as
arguments to the embedded methods `image_pred`, `morse_pred` and
`get_params`.
-/

/-- The numerical primitives the kernel uses: `np.exp`, `np.sqrt`, and the
constant `np.log(2)`. -/
structure NumOps (α : Type) where
  exp : α → α
  sqrt : α → α
  log2 : α

/-- The combination rule (the `combo` argument of `morse_potential`). -/
inductive Combo
  | mean
  | yang
deriving DecidableEq

/-- One row of a per-element Morse parameter table: the `re`, `De`, `a`
columns of `morse_params/{elem}{elem}.csv`. -/
structure ElemParams (α : Type) where
  re : α
  De : α
  a : α
deriving DecidableEq, Repr

/-- A 3-vector, one row of a numpy `(n, 3)` array. -/
abbrev Vec3 (α : Type) := α × α × α

/-- A 3x3 matrix as three row vectors (the periodic cell). -/
abbrev Mat3 (α : Type) := Vec3 (Vec3 α)

/-- `(d ** 2).sum(1)` for one displacement row: the squared Euclidean norm. -/
def normSq {α : Type} [Field α] (d : Vec3 α) : α :=
  d.1 * d.1 + d.2.1 * d.2.1 + d.2.2 * d.2.2

/-- One row of `np.dot(offsets, cell)` (morse.py line 68): the integer offset
triplet contracted against the rows of the cell matrix. -/
def offsetDot {α : Type} [Field α] (o : Vec3 Int) (cell : Mat3 α) : Vec3 α :=
  (o.1 : α) • cell.1 + (o.2.1 : α) • cell.2.1 + (o.2.2 : α) • cell.2.2

/-- An atomic configuration together with its cached neighbor list.
`nbrsOf a1` models `self.neighborlist[get_hash(image)][a1]` zipped into
`(neighbor index, periodic offset)` pairs (morse.py line 67). -/
structure Image (α : Type) where
  symbols : List String
  positions : List (Vec3 α)
  cell : Mat3 α
  nbrsOf : Nat → List (Nat × Vec3 Int)

/-- Python indexing `xs[i]` on a sequence; the error case is the
`IndexError` raised on an out-of-range index. -/
def look {β : Type} (l : List β) (i : Nat) : Except String β :=
  match l.get? i with
  | some x => Except.ok x
  | none => Except.error "IndexError"

/-- morse.py lines 44-51: the per-atom parameter rows `[re, De, sig]` with
`sig = re - log(2)/a`; an element absent from `params_dict` raises
`KeyError` (Python dict lookup), which aborts `image_pred`. -/
def buildParams {α : Type} [Field α] (ops : NumOps α)
    (paramsDict : String → Option (ElemParams α)) :
    List String → Except String (List (α × α × α))
  | [] => Except.ok []
  | s :: rest =>
    match paramsDict s with
    | none => Except.error ("KeyError: " ++ s)
    | some p =>
      match buildParams ops paramsDict rest with
      | Except.error e => Except.error e
      | Except.ok rows => Except.ok ((p.re, p.De, p.re - ops.log2 / p.a) :: rows)

/-- morse.py lines 73-80: the combined pair parameters `(D, sig, re)` under
the active combination rule.  `D1` is the well depth of the reference atom
as read at line 65 (there wrapped in `np.abs`), `DN` the raw well depth of
the neighbor as read at line 71 (no `np.abs`). -/
def comboParams {α : Type} [Field α] (ops : NumOps α) (combo : Combo)
    (re1 D1 sig1 reN DN sigN : α) : α × α × α :=
  match combo with
  | Combo.mean =>
    let re : α := 1682829 / 1000000
    ((9975126 : α) / 1000000, re - ops.log2 / ((151511 : α) / 100000), re)
  | Combo.yang =>
    ((2 * D1 * DN) / (D1 + DN),
     (sig1 * sigN) * (sig1 + sigN) / (sig1 ^ 2 + sigN ^ 2),
     (re1 * reN) * (re1 + reN) / (re1 ^ 2 + reN ^ 2))

/-- morse.py lines 82-88: pair energy
`D * (exp(-2C(r*-re*)) - 2*exp(-C(r*-re*)))` with `r* = r/sig`,
`re* = re/sig` and `C = log(2)/(re* - 1)`. -/
def morsePairE {α : Type} [Field α] (ops : NumOps α) (D sig re r : α) : α :=
  let rStar := r / sig
  let reStar := re / sig
  let C := ops.log2 / (reStar - 1)
  D * (ops.exp (-(2 * C * (rStar - reStar))) - 2 * ops.exp (-(C * (rStar - reStar))))

/-- morse.py lines 90-97: the scalar prefactor of the pair force row,
`(2*D*C/sig) * (1/r) * (exp(-2C(r*-re*)) - exp(-C(r*-re*)))`. -/
def morseForceScalar {α : Type} [Field α] (ops : NumOps α) (D sig re r : α) : α :=
  let rStar := r / sig
  let reStar := re / sig
  let C := ops.log2 / (reStar - 1)
  2 * D * C / sig * (1 / r) * (ops.exp (-(2 * C * (rStar - reStar))) - ops.exp (-(C * (rStar - reStar))))

/-- The contribution of one directed neighbor entry `(a2, offset)` of the
reference atom: neighbor index, pair energy, and pair force row.  This is
the elementwise view of the vectorized computation of morse.py lines
67-97; `row1` is the raw parameter row of the reference atom (the `np.abs`
of line 65 is applied to its well depth here, the neighbor well depth is
used raw exactly as at line 71). -/
def pairContrib {α : Type} [LinearOrderedField α] (ops : NumOps α) (combo : Combo)
    (params : List (α × α × α)) (positions : List (Vec3 α)) (cell : Mat3 α)
    (p1 : Vec3 α) (row1 : α × α × α) (nbr : Nat × Vec3 Int) :
    Except String (Nat × α × Vec3 α) :=
  match look positions nbr.1, look params nbr.1 with
  | Except.ok pj, Except.ok rowN =>
    let d : Vec3 α := pj + offsetDot nbr.2 cell - p1
    let pr := comboParams ops combo row1.1 |row1.2.1| row1.2.2 rowN.1 rowN.2.1 rowN.2.2
    let r := ops.sqrt (normSq d)
    Except.ok (nbr.1, morsePairE ops pr.1 pr.2.1 pr.2.2 r,
      morseForceScalar ops pr.1 pr.2.1 pr.2.2 r • d)
  | Except.error e, _ => Except.error e
  | _, Except.error e => Except.error e

/-- The pair contributions of all directed neighbor entries of one atom, in
neighbor-list order (the vectorized arrays `atom_energy` and `f` of
morse.py lines 85-97). -/
def pairLoop {α : Type} [LinearOrderedField α] (ops : NumOps α) (combo : Combo)
    (params : List (α × α × α)) (positions : List (Vec3 α)) (cell : Mat3 α)
    (p1 : Vec3 α) (row1 : α × α × α) :
    List (Nat × Vec3 Int) → Except String (List (Nat × α × Vec3 α))
  | [] => Except.ok []
  | nbr :: rest =>
    match pairContrib ops combo params positions cell p1 row1 nbr with
    | Except.error e => Except.error e
    | Except.ok c =>
      match pairLoop ops combo params positions cell p1 row1 rest with
      | Except.error e => Except.error e
      | Except.ok cs => Except.ok (c :: cs)

/-- The body of the `for a1 in range(natoms)` loop of morse.py lines
63-100: add atom `a1`'s summed neighbor energies to the running energy,
subtract the summed pair forces from `forces[a1]`, and add each pair force
row to the accumulator of the corresponding neighbor. -/
def atomStep {α : Type} [LinearOrderedField α] (ops : NumOps α) (combo : Combo)
    (params : List (α × α × α)) (positions : List (Vec3 α)) (cell : Mat3 α)
    (nbrs : List (Nat × Vec3 Int)) (a1 : Nat) (st : α × List (Vec3 α)) :
    Except String (α × List (Vec3 α)) :=
  match look params a1, look positions a1 with
  | Except.ok row1, Except.ok p1 =>
    match pairLoop ops combo params positions cell p1 row1 nbrs with
    | Except.error e => Except.error e
    | Except.ok cs =>
      let E := st.1 + (cs.map (fun c => c.2.1)).sum
      let F1 := st.2.set a1 (st.2.getD a1 0 - (cs.map (fun c => c.2.2)).sum)
      let F2 := cs.foldl (fun F c => F.set c.1 (F.getD c.1 0 + c.2.2)) F1
      Except.ok (E, F2)
  | Except.error e, _ => Except.error e
  | _, Except.error e => Except.error e

/-- The `for a1 in range(natoms)` loop itself, threading the
`(energy, forces)` state. -/
def imageLoop {α : Type} [LinearOrderedField α] (ops : NumOps α) (combo : Combo)
    (params : List (α × α × α)) (positions : List (Vec3 α)) (cell : Mat3 α)
    (nbrsOf : Nat → List (Nat × Vec3 Int)) :
    List Nat → α × List (Vec3 α) → Except String (α × List (Vec3 α))
  | [], st => Except.ok st
  | a1 :: rest, st =>
    match atomStep ops combo params positions cell (nbrsOf a1) a1 st with
    | Except.error e => Except.error e
    | Except.ok st2 => imageLoop ops combo params positions cell nbrsOf rest st2

/-- `morse_potential.image_pred` (morse.py lines 41-101): the total energy,
per-atom force rows and atom count of one configuration. -/
def image_pred {α : Type} [LinearOrderedField α] (ops : NumOps α)
    (paramsDict : String → Option (ElemParams α)) (combo : Combo)
    (image : Image α) : Except String (α × List (Vec3 α) × Nat) :=
  match buildParams ops paramsDict image.symbols with
  | Except.error e => Except.error e
  | Except.ok params =>
    let natoms := image.positions.length
    match imageLoop ops combo params image.positions image.cell image.nbrsOf
        (List.range natoms) (0, List.replicate natoms 0) with
    | Except.error e => Except.error e
    | Except.ok st => Except.ok (st.1, st.2, natoms)

/-- The `for image in data` loop of `morse_potential.morse_pred`, appending
each configuration's results to the three accumulator lists; an exception
raised by `image_pred` propagates and aborts the loop. -/
def morseLoop {α : Type} [LinearOrderedField α] (ops : NumOps α)
    (paramsDict : String → Option (ElemParams α)) (combo : Combo) :
    List (Image α) → List α × List (List (Vec3 α)) × List Nat →
    Except String (List α × List (List (Vec3 α)) × List Nat)
  | [], acc => Except.ok acc
  | img :: rest, acc =>
    match image_pred ops paramsDict combo img with
    | Except.error e => Except.error e
    | Except.ok r =>
      morseLoop ops paramsDict combo rest
        (acc.1 ++ [r.1], acc.2.1 ++ [r.2.1], acc.2.2 ++ [r.2.2])

/-- `morse_potential.morse_pred` (morse.py lines 103-112). -/
def morse_pred {α : Type} [LinearOrderedField α] (ops : NumOps α)
    (paramsDict : String → Option (ElemParams α)) (combo : Combo)
    (data : List (Image α)) :
    Except String (List α × List (List (Vec3 α)) × List Nat) :=
  morseLoop ops paramsDict combo data ([], [], [])

/-- The diagnostic printed for a missing element (morse.py lines 125-128;
the source string is not an f-string, so the braces are printed
literally and the message does not actually name the element). -/
def missingMsg : String :=
  "Morse parameters not available for {elem}, requires manual definition"

/-- The `for elem in elements` loop of `morse_potential.get_params`
(morse.py lines 116-129).  `last` is the current value of the Python local
`element_params`: it keeps its previous value when `pd.read_csv` raises
(the `except` clause only prints), and `params[elem] = element_params`
raises `UnboundLocalError` when no read has succeeded yet.  The second
result component collects the printed diagnostics. -/
def getParamsLoop {P : Type} (readCsv : String → Option P) :
    List String → Option P → List (String × P) → List String →
    Except String (List (String × P) × List String)
  | [], _, acc, diags => Except.ok (acc, diags)
  | elem :: rest, last, acc, diags =>
    match readCsv elem with
    | some p => getParamsLoop readCsv rest (some p) (acc ++ [(elem, p)]) diags
    | none =>
      match last with
      | some p =>
        getParamsLoop readCsv rest (some p) (acc ++ [(elem, p)]) (diags ++ [missingMsg])
      | none => Except.error "UnboundLocalError: element_params"

/-- `morse_potential.get_params` (morse.py lines 114-130): `readCsv`
models `pd.read_csv(...).iloc[0].to_dict()` on the per-element csv file
(`none` when the file is missing and the call raises). -/
def get_params {P : Type} (readCsv : String → Option P) (elements : List String) :
    Except String (List (String × P) × List String) :=
  getParamsLoop readCsv elements none [] []

/-- Specification-side pair energy of the directed neighbor entry `nbr` of
atom `a1`: the Morse pair formula with pair parameters from the active
combination rule (spec section 4.3, steps 1-5), written with total
lookups. -/
def specPairEnergy {α : Type} [LinearOrderedField α] (ops : NumOps α) (combo : Combo)
    (params : List (α × α × α)) (positions : List (Vec3 α)) (cell : Mat3 α)
    (a1 : Nat) (nbr : Nat × Vec3 Int) : α :=
  let row1 := params.getD a1 (0, 0, 0)
  let p1 := positions.getD a1 0
  let pj := positions.getD nbr.1 0
  let rowN := params.getD nbr.1 (0, 0, 0)
  let d : Vec3 α := pj + offsetDot nbr.2 cell - p1
  let pr := comboParams ops combo row1.1 |row1.2.1| row1.2.2 rowN.1 rowN.2.1 rowN.2.2
  morsePairE ops pr.1 pr.2.1 pr.2.2 (ops.sqrt (normSq d))

/-! ## Helper lemmas -/

theorem look_ok_getD {β : Type} {l : List β} {i : Nat} {x : β} (d : β)
    (h : look l i = Except.ok x) : l.getD i d = x := by
  unfold look at h
  cases hg : l.get? i with
  | none => rw [hg] at h; exact absurd h (by simp)
  | some y =>
    rw [hg] at h
    cases h
    simp [List.getD_eq_getElem?_getD, ← List.get?_eq_getElem?, hg]

theorem look_ok_lt {β : Type} {l : List β} {i : Nat} {x : β}
    (h : look l i = Except.ok x) : i < l.length := by
  unfold look at h
  cases hg : l.get? i with
  | none => rw [hg] at h; exact absurd h (by simp)
  | some y => exact List.get?_eq_some.mp hg |>.1

theorem look_ok_of_lt {β : Type} {l : List β} {i : Nat} (h : i < l.length) :
    ∃ x, look l i = Except.ok x := by
  unfold look
  cases hg : l.get? i with
  | none => exact absurd (List.get?_eq_none.mp hg) (by omega)
  | some y => exact ⟨y, rfl⟩

theorem sum_set_of_lt {β : Type} [AddCommGroup β] (l : List β) (i : Nat) (v : β)
    (h : i < l.length) : (l.set i v).sum = l.sum - l.getD i 0 + v := by
  induction l generalizing i with
  | nil => simp at h
  | cons a t ih =>
    cases i with
    | zero =>
      simp only [List.set, List.sum_cons, List.getD_cons_zero]
      abel
    | succ n =>
      simp only [List.set, List.sum_cons, List.getD_cons_succ,
        ih n (by simpa using h)]
      abel

theorem sum_set_add {β : Type} [AddCommGroup β] (l : List β) (i : Nat) (v : β)
    (h : i < l.length) : (l.set i (l.getD i 0 + v)).sum = l.sum + v := by
  rw [sum_set_of_lt l i _ h]
  abel

theorem sum_set_sub {β : Type} [AddCommGroup β] (l : List β) (i : Nat) (v : β)
    (h : i < l.length) : (l.set i (l.getD i 0 - v)).sum = l.sum - v := by
  rw [sum_set_of_lt l i _ h]
  abel

theorem set_getD_self {β : Type} (l : List β) (i : Nat) (d : β) :
    l.set i (l.getD i d) = l := by
  induction l generalizing i with
  | nil => simp
  | cons a t ih =>
    cases i with
    | zero => simp
    | succ n =>
      rw [List.getD_cons_succ]
      show a :: t.set n (t.getD n d) = a :: t
      rw [ih n]

theorem foldl_add_sum {γ β : Type} [AddCommGroup β] (cs : List (Nat × γ × β)) :
    ∀ F : List β, (∀ c ∈ cs, c.1 < F.length) →
      (cs.foldl (fun F c => F.set c.1 (F.getD c.1 0 + c.2.2)) F).sum
          = F.sum + (cs.map (fun c => c.2.2)).sum
        ∧ (cs.foldl (fun F c => F.set c.1 (F.getD c.1 0 + c.2.2)) F).length
          = F.length := by
  induction cs with
  | nil => intro F _; simp
  | cons c t ih =>
    intro F h
    have hc : c.1 < F.length := h c (List.mem_cons_self c t)
    have hlen : (F.set c.1 (F.getD c.1 0 + c.2.2)).length = F.length := by simp
    obtain ⟨h1, h2⟩ := ih (F.set c.1 (F.getD c.1 0 + c.2.2))
      (by intro x hx; rw [hlen]; exact h x (List.mem_cons_of_mem c hx))
    refine ⟨?_, ?_⟩
    · rw [List.foldl_cons, h1, sum_set_add F c.1 c.2.2 hc, List.map_cons,
        List.sum_cons]
      abel
    · rw [List.foldl_cons, h2, hlen]

theorem pairContrib_ok {α : Type} [LinearOrderedField α] {ops : NumOps α}
    {combo : Combo} {params : List (α × α × α)} {positions : List (Vec3 α)}
    {cell : Mat3 α} {p1 : Vec3 α} {row1 : α × α × α} {nbr : Nat × Vec3 Int}
    {c : Nat × α × Vec3 α}
    (h : pairContrib ops combo params positions cell p1 row1 nbr = Except.ok c) :
    c.1 = nbr.1 ∧ c.1 < positions.length := by
  unfold pairContrib at h
  cases h1 : look positions nbr.1 with
  | error e => rw [h1] at h; exact absurd h (by simp)
  | ok pj =>
    cases h2 : look params nbr.1 with
    | error e => rw [h1, h2] at h; exact absurd h (by simp)
    | ok rowN =>
      rw [h1, h2] at h
      simp only [Except.ok.injEq] at h
      subst h
      exact ⟨rfl, look_ok_lt h1⟩

theorem pairContrib_energy {α : Type} [LinearOrderedField α] {ops : NumOps α}
    {combo : Combo} {params : List (α × α × α)} {positions : List (Vec3 α)}
    {cell : Mat3 α} {p1 : Vec3 α} {row1 : α × α × α} {nbr : Nat × Vec3 Int}
    {c : Nat × α × Vec3 α}
    (h : pairContrib ops combo params positions cell p1 row1 nbr = Except.ok c)
    (a1 : Nat) (hp1 : p1 = positions.getD a1 0)
    (hrow : row1 = params.getD a1 (0, 0, 0)) :
    c.2.1 = specPairEnergy ops combo params positions cell a1 nbr := by
  unfold pairContrib at h
  cases h1 : look positions nbr.1 with
  | error e => rw [h1] at h; exact absurd h (by simp)
  | ok pj =>
    cases h2 : look params nbr.1 with
    | error e => rw [h1, h2] at h; exact absurd h (by simp)
    | ok rowN =>
      rw [h1, h2] at h
      simp only [Except.ok.injEq] at h
      subst h
      simp only [specPairEnergy]
      rw [← hp1, ← hrow, look_ok_getD 0 h1, look_ok_getD (0, 0, 0) h2]

theorem pairLoop_ok {α : Type} [LinearOrderedField α] {ops : NumOps α}
    {combo : Combo} {params : List (α × α × α)} {positions : List (Vec3 α)}
    {cell : Mat3 α} {p1 : Vec3 α} {row1 : α × α × α}
    (a1 : Nat) (hp1 : p1 = positions.getD a1 0)
    (hrow : row1 = params.getD a1 (0, 0, 0)) :
    ∀ {l : List (Nat × Vec3 Int)} {cs : List (Nat × α × Vec3 α)},
      pairLoop ops combo params positions cell p1 row1 l = Except.ok cs →
      cs.map (fun c => c.2.1)
          = l.map (specPairEnergy ops combo params positions cell a1)
        ∧ ∀ c ∈ cs, c.1 < positions.length := by
  intro l
  induction l with
  | nil =>
    intro cs h
    unfold pairLoop at h
    simp only [Except.ok.injEq] at h
    subst h
    simp
  | cons nbr rest ih =>
    intro cs h
    unfold pairLoop at h
    cases hc : pairContrib ops combo params positions cell p1 row1 nbr with
    | error e => rw [hc] at h; exact absurd h (by simp)
    | ok c =>
      rw [hc] at h
      cases hr : pairLoop ops combo params positions cell p1 row1 rest with
      | error e => rw [hr] at h; exact absurd h (by simp)
      | ok cs2 =>
        rw [hr] at h
        simp only [Except.ok.injEq] at h
        subst h
        obtain ⟨ih1, ih2⟩ := ih hr
        refine ⟨?_, ?_⟩
        · simp only [List.map_cons, ih1, pairContrib_energy hc a1 hp1 hrow]
        · intro x hx
          rcases List.mem_cons.mp hx with hx | hx
          · subst hx; exact (pairContrib_ok hc).2
          · exact ih2 x hx

theorem atomStep_ok {α : Type} [LinearOrderedField α] {ops : NumOps α}
    {combo : Combo} {params : List (α × α × α)} {positions : List (Vec3 α)}
    {cell : Mat3 α} {nbrs : List (Nat × Vec3 Int)} {a1 : Nat} {E E2 : α}
    {F F2 : List (Vec3 α)}
    (h : atomStep ops combo params positions cell nbrs a1 (E, F) = Except.ok (E2, F2))
    (hF : F.length = positions.length) :
    E2 = E + (nbrs.map (specPairEnergy ops combo params positions cell a1)).sum
      ∧ F2.sum = F.sum ∧ F2.length = positions.length := by
  unfold atomStep at h
  cases h1 : look params a1 with
  | error e => rw [h1] at h; exact absurd h (by simp)
  | ok row1 =>
    cases h2 : look positions a1 with
    | error e => rw [h1, h2] at h; exact absurd h (by simp)
    | ok p1 =>
      rw [h1, h2] at h
      dsimp only at h
      cases hp : pairLoop ops combo params positions cell p1 row1 nbrs with
      | error e => rw [hp] at h; exact absurd h (by simp)
      | ok cs =>
        rw [hp] at h
        simp only [Except.ok.injEq, Prod.mk.injEq] at h
        obtain ⟨hE, hF2⟩ := h
        have hp1 : p1 = positions.getD a1 0 := (look_ok_getD 0 h2).symm
        have hrow : row1 = params.getD a1 (0, 0, 0) := (look_ok_getD (0, 0, 0) h1).symm
        obtain ⟨hmap, hbound⟩ := pairLoop_ok a1 hp1 hrow hp
        have ha1 : a1 < F.length := by rw [hF]; exact look_ok_lt h2
        have hlen1 : (F.set a1 (F.getD a1 0 - (cs.map (fun c => c.2.2)).sum)).length
            = F.length := by simp
        have hsum1 : (F.set a1 (F.getD a1 0 - (cs.map (fun c => c.2.2)).sum)).sum
            = F.sum - (cs.map (fun c => c.2.2)).sum :=
          sum_set_sub F a1 _ ha1
        obtain ⟨hsum2, hlen2⟩ := foldl_add_sum cs
          (F.set a1 (F.getD a1 0 - (cs.map (fun c => c.2.2)).sum))
          (by intro c hc; rw [hlen1, hF]; exact hbound c hc)
        refine ⟨?_, ?_, ?_⟩
        · rw [← hE, hmap]
        · rw [← hF2, hsum2, hsum1]; abel
        · rw [← hF2, hlen2, hlen1, hF]

theorem imageLoop_ok {α : Type} [LinearOrderedField α] {ops : NumOps α}
    {combo : Combo} {params : List (α × α × α)} {positions : List (Vec3 α)}
    {cell : Mat3 α} {nbrsOf : Nat → List (Nat × Vec3 Int)} :
    ∀ {l : List Nat} {E E2 : α} {F F2 : List (Vec3 α)},
      imageLoop ops combo params positions cell nbrsOf l (E, F) = Except.ok (E2, F2) →
      F.length = positions.length →
      E2 = E + (l.map (fun a1 =>
          ((nbrsOf a1).map (specPairEnergy ops combo params positions cell a1)).sum)).sum
        ∧ F2.sum = F.sum ∧ F2.length = positions.length := by
  intro l
  induction l with
  | nil =>
    intro E E2 F F2 h hF
    unfold imageLoop at h
    simp only [Except.ok.injEq, Prod.mk.injEq] at h
    obtain ⟨h1, h2⟩ := h
    subst h1
    subst h2
    simp [hF]
  | cons a1 rest ih =>
    intro E E2 F F2 h hF
    unfold imageLoop at h
    cases hs : atomStep ops combo params positions cell (nbrsOf a1) a1 (E, F) with
    | error e => rw [hs] at h; exact absurd h (by simp)
    | ok st2 =>
      rw [hs] at h
      obtain ⟨E1, F1⟩ := st2
      obtain ⟨hE1, hsum1, hlen1⟩ := atomStep_ok hs hF
      obtain ⟨hE2, hsum2, hlen2⟩ := ih h hlen1
      refine ⟨?_, ?_, ?_⟩
      · rw [hE2, hE1, List.map_cons, List.sum_cons]; ring
      · rw [hsum2, hsum1]
      · exact hlen2

theorem image_pred_ok {α : Type} [LinearOrderedField α] {ops : NumOps α}
    {paramsDict : String → Option (ElemParams α)} {combo : Combo} {img : Image α}
    {E : α} {F : List (Vec3 α)} {n : Nat}
    (h : image_pred ops paramsDict combo img = Except.ok (E, F, n)) :
    n = img.positions.length
      ∧ ∃ params, buildParams ops paramsDict img.symbols = Except.ok params
        ∧ E = ((List.range n).map (fun a1 =>
            ((img.nbrsOf a1).map
              (specPairEnergy ops combo params img.positions img.cell a1)).sum)).sum
        ∧ F.sum = 0 ∧ F.length = n := by
  unfold image_pred at h
  cases hb : buildParams ops paramsDict img.symbols with
  | error e => rw [hb] at h; exact absurd h (by simp)
  | ok params =>
    rw [hb] at h
    dsimp only at h
    cases hl : imageLoop ops combo params img.positions img.cell img.nbrsOf
        (List.range img.positions.length)
        (0, List.replicate img.positions.length 0) with
    | error e => rw [hl] at h; exact absurd h (by simp)
    | ok st =>
      rw [hl] at h
      obtain ⟨E1, F1⟩ := st
      simp only [Except.ok.injEq, Prod.mk.injEq] at h
      obtain ⟨hE, hF, hn⟩ := h
      obtain ⟨h1, h2, h3⟩ := imageLoop_ok hl (by simp)
      subst hE
      subst hF
      subst hn
      refine ⟨rfl, params, rfl, ?_, ?_, ?_⟩
      · rw [h1, zero_add]
      · rw [h2, List.sum_replicate, smul_zero]
      · exact h3

theorem buildParams_ok {α : Type} [Field α] (ops : NumOps α)
    (paramsDict : String → Option (ElemParams α)) :
    ∀ l : List String, (∀ s ∈ l, (paramsDict s).isSome = true) →
      ∃ rows, buildParams ops paramsDict l = Except.ok rows
        ∧ rows.length = l.length := by
  intro l
  induction l with
  | nil => intro _; exact ⟨[], rfl, rfl⟩
  | cons s rest ih =>
    intro h
    obtain ⟨p, hp⟩ := Option.isSome_iff_exists.mp (h s (List.mem_cons_self s rest))
    obtain ⟨rows, hr, hlen⟩ := ih (fun x hx => h x (List.mem_cons_of_mem s hx))
    refine ⟨(p.re, p.De, p.re - ops.log2 / p.a) :: rows, ?_, by simp [hlen]⟩
    unfold buildParams
    rw [hp, hr]

theorem atomStep_empty {α : Type} [LinearOrderedField α] (ops : NumOps α)
    (combo : Combo) (params : List (α × α × α)) (positions : List (Vec3 α))
    (cell : Mat3 α) (a1 : Nat) (E : α) (F : List (Vec3 α))
    (h1 : a1 < params.length) (h2 : a1 < positions.length) :
    atomStep ops combo params positions cell [] a1 (E, F) = Except.ok (E, F) := by
  obtain ⟨row1, hr⟩ := look_ok_of_lt h1
  obtain ⟨p1, hp⟩ := look_ok_of_lt h2
  unfold atomStep
  rw [hr, hp]
  dsimp only
  simp only [pairLoop, List.map_nil, List.sum_nil, add_zero, sub_zero,
    List.foldl_nil, set_getD_self]

theorem imageLoop_id {α : Type} [LinearOrderedField α] (ops : NumOps α)
    (combo : Combo) (params : List (α × α × α)) (positions : List (Vec3 α))
    (cell : Mat3 α) (nbrsOf : Nat → List (Nat × Vec3 Int)) :
    ∀ (l : List Nat) (st : α × List (Vec3 α)),
      (∀ a1 ∈ l, atomStep ops combo params positions cell (nbrsOf a1) a1 st
        = Except.ok st) →
      imageLoop ops combo params positions cell nbrsOf l st = Except.ok st := by
  intro l
  induction l with
  | nil => intro st _; rfl
  | cons a1 rest ih =>
    intro st h
    unfold imageLoop
    rw [h a1 (List.mem_cons_self a1 rest)]
    exact ih st (fun x hx => h x (List.mem_cons_of_mem a1 hx))

/-- A default configuration, used only as the default of `List.getD`. -/
def dImg {α : Type} [LinearOrderedField α] : Image α :=
  ⟨[], [], 0, fun _ => []⟩

theorem morseLoop_ok {α : Type} [LinearOrderedField α] {ops : NumOps α}
    {paramsDict : String → Option (ElemParams α)} {combo : Combo} :
    ∀ {data : List (Image α)} {acc0 : List α × List (List (Vec3 α)) × List Nat}
      {es : List α} {fs : List (List (Vec3 α))} {ns : List Nat},
      morseLoop ops paramsDict combo data acc0 = Except.ok (es, fs, ns) →
      ∃ es1 fs1 ns1, es = acc0.1 ++ es1 ∧ fs = acc0.2.1 ++ fs1 ∧ ns = acc0.2.2 ++ ns1
        ∧ es1.length = data.length ∧ fs1.length = data.length
        ∧ ns1.length = data.length
        ∧ ∀ i, i < data.length →
            image_pred ops paramsDict combo (data.getD i dImg)
              = Except.ok (es1.getD i 0, fs1.getD i [], ns1.getD i 0) := by
  intro data
  induction data with
  | nil =>
    intro acc0 es fs ns h
    unfold morseLoop at h
    simp only [Except.ok.injEq] at h
    subst h
    exact ⟨[], [], [], by simp, by simp, by simp, rfl, rfl, rfl,
      by intro i hi; simp at hi⟩
  | cons img rest ih =>
    intro acc0 es fs ns h
    unfold morseLoop at h
    cases hi : image_pred ops paramsDict combo img with
    | error e => rw [hi] at h; exact absurd h (by simp)
    | ok r =>
      rw [hi] at h
      dsimp only at h
      obtain ⟨es1, fs1, ns1, h1, h2, h3, h4, h5, h6, h7⟩ := ih h
      refine ⟨r.1 :: es1, r.2.1 :: fs1, r.2.2 :: ns1, ?_, ?_, ?_,
        by simp [h4], by simp [h5], by simp [h6], ?_⟩
      · rw [h1]; simp
      · rw [h2]; simp
      · rw [h3]; simp
      · intro i hi2
        cases i with
        | zero =>
          simpa using hi
        | succ j =>
          simpa using h7 j (by simpa using hi2)

/-! ## Concrete sample data for evaluations -/

/-- A sample instantiation of the abstract numerical primitives over `ℚ`,
used only to evaluate the embedding at concrete inputs (the structural
theorems below are quantified over arbitrary `NumOps`). -/
def sOps : NumOps ℚ := ⟨fun _ => 1, fun _ => 0, 0⟩

/-- Whether a computation completed without raising an exception. -/
def isOkE {ε β : Type} : Except ε β → Bool
  | Except.ok _ => true
  | Except.error _ => false

/-- A sample parameter record for element H. -/
def pH : ElemParams ℚ := ⟨1, 2, 1⟩

/-- A parameter table holding only element H. -/
def dictH : String → Option (ElemParams ℚ) :=
  fun s => if s = "H" then some pH else none

/-- Two H atoms at distance 1, mutual neighbors with zero offsets. -/
def imgPair : Image ℚ :=
  ⟨["H", "H"], [(0, 0, 0), (1, 0, 0)], 0,
    fun a1 => if a1 = 0 then [(1, (0, 0, 0))]
      else if a1 = 1 then [(0, (0, 0, 0))] else []⟩

/-- Two H atoms at the same position, each the other's neighbor with zero
offset: a configuration with a zero-distance neighbor pair. -/
def imgZero : Image ℚ :=
  ⟨["H", "H"], [(0, 0, 0), (0, 0, 0)], 0,
    fun a1 => if a1 = 0 then [(1, (0, 0, 0))]
      else if a1 = 1 then [(0, (0, 0, 0))] else []⟩

/-- A single atom of the element X, which is absent from `dictH`. -/
def imgX : Image ℚ := ⟨["X"], [(0, 0, 0)], 0, fun _ => []⟩

/-- A single H atom with an empty neighbor list. -/
def imgH0 : Image ℚ := ⟨["H"], [(0, 0, 0)], 0, fun _ => []⟩

/-- A parameter table for an H-X pair in which only the sign of X's `De`
varies: H gets `De = 1` and X gets `De = dX`. -/
def dictDe (dX : ℚ) : String → Option (ElemParams ℚ) := fun s =>
  if s = "H" then some ⟨1, 1, 1⟩ else if s = "X" then some ⟨1, dX, 1⟩ else none

/-- One H atom and one X atom at distance 1, mutual neighbors with zero
offsets. -/
def imgHX : Image ℚ :=
  ⟨["H", "X"], [(0, 0, 0), (1, 0, 0)], 0,
    fun a1 => if a1 = 0 then [(1, (0, 0, 0))]
      else if a1 = 1 then [(0, (0, 0, 0))] else []⟩

/-! ## Claims -/

/-- **C1**: the claim states that the pair well depth `D` fed into the
energy and force formulas depends only on `|De_i|` and `|De_j|`, never on
a negative `De`.  This is false of the code: morse.py line 65 applies
`np.abs` to the reference atom's well depth only, while line 71 reads the
neighbor's well depth raw, so under the `yang` rule the combined `D`
depends on the sign of the neighbor's `De`.  With `|De_1| = 1`, the
neighbor value `De_n = -3` yields `D = 3` while its absolute value `3`
yields `D = 3/2`; consequently an H-X configuration with `De_X = -3`
versus `De_X = 3` produces different total energies although the two
tables agree on all `|De|` values. -/
theorem claim1_neighbor_wellDepth_sign_sensitive :
    (comboParams sOps Combo.yang 1 |(1 : ℚ)| 1 1 (-3) 1).1 = 3
    ∧ (comboParams sOps Combo.yang 1 |(1 : ℚ)| 1 1 |(-3 : ℚ)| 1).1 = 3 / 2
    ∧ image_pred sOps (dictDe (-3)) Combo.yang imgHX
        = Except.ok (-(9 / 2), [(0, 0, 0), (0, 0, 0)], 2)
    ∧ image_pred sOps (dictDe 3) Combo.yang imgHX
        = Except.ok (-3, [(0, 0, 0), (0, 0, 0)], 2)
    ∧ (-(9 / 2) : ℚ) ≠ -3 := by
  refine ⟨?_, ?_, ?_, ?_, by norm_num⟩
  · simp only [comboParams, sOps]
    norm_num
  · simp only [comboParams, sOps]
    norm_num
  · simp only [image_pred, buildParams, imgHX, sOps,
      show dictDe (-3) "H" = some (ElemParams.mk 1 1 1) from rfl,
      show dictDe (-3) "X" = some (ElemParams.mk 1 (-3) 1) from rfl,
      show List.range 2 = [0, 1] from rfl, imageLoop, atomStep, pairLoop,
      pairContrib, look, comboParams, morsePairE, morseForceScalar, normSq,
      offsetDot, List.get?, List.getD, List.set, List.foldl,
      List.map, List.sum_cons, List.sum_nil, List.replicate, List.length]
    norm_num
  · simp only [image_pred, buildParams, imgHX, sOps,
      show dictDe 3 "H" = some (ElemParams.mk 1 1 1) from rfl,
      show dictDe 3 "X" = some (ElemParams.mk 1 3 1) from rfl,
      show List.range 2 = [0, 1] from rfl, imageLoop, atomStep, pairLoop,
      pairContrib, look, comboParams, morsePairE, morseForceScalar, normSq,
      offsetDot, List.get?, List.getD, List.set, List.foldl,
      List.map, List.sum_cons, List.sum_nil, List.replicate, List.length]
    norm_num

/-- **C2**: the claim states that `image_pred` aborts a configuration
containing a zero-distance neighbor pair with a fatal diagnostic instead
of returning non-finite values.  This is false of the code: no such check
exists.  `imgZero` contains the directed neighbor pair `(0, 1)` at zero
displacement, yet `image_pred` completes normally for every numeric
backend; in NumPy the `1/r` factor of morse.py line 92 silently produces
`inf` (a warning, not an exception) and `inf * 0` then puts `NaN` into
the returned forces. -/
theorem claim2_zero_distance_no_abort :
    imgZero.positions.getD 1 0 + offsetDot (0, 0, 0) imgZero.cell
        - imgZero.positions.getD 0 0 = (0 : Vec3 ℚ)
    ∧ (1, ((0 : ℤ), (0 : ℤ), (0 : ℤ))) ∈ imgZero.nbrsOf 0
    ∧ ∀ ops : NumOps ℚ, isOkE (image_pred ops dictH Combo.yang imgZero) = true := by
  refine ⟨by simp [imgZero, offsetDot], by decide, fun _ => rfl⟩

/-- **C3**: the claim states that `get_params` emits a diagnostic per
missing element, continues without the loading process crashing, and
never silently associates a missing element with another element's
parameters.  This is false of the code: the Python local `element_params`
keeps the previous element's record when `pd.read_csv` raises (the
`except` clause only prints), so a missing element X that follows a
present element H silently receives H's parameters; and when the very
first element is missing, `params[elem] = element_params` raises
`UnboundLocalError`, crashing the load. -/
theorem claim3_missing_element_gets_stale_params :
    get_params dictH ["H", "X"]
        = Except.ok ([("H", pH), ("X", pH)], [missingMsg])
    ∧ get_params dictH ["X", "H"]
        = Except.error "UnboundLocalError: element_params" :=
  ⟨rfl, rfl⟩

/-- **C4**: the claim states that a prediction error on one configuration
is isolated to it and the batch still produces results for the remaining
configurations.  This is false of the code: `morse_pred` is a bare loop
with no error handling, so the exception raised by `image_pred` on the
second configuration (element X missing from the parameter table) aborts
the whole batch, although the first configuration on its own predicts
successfully. -/
theorem claim4_error_aborts_batch :
    (∀ ops : NumOps ℚ,
      morse_pred ops dictH Combo.yang [imgPair, imgX]
        = Except.error "KeyError: X")
    ∧ ∀ ops : NumOps ℚ, isOkE (image_pred ops dictH Combo.yang imgPair) = true :=
  ⟨fun _ => rfl, fun _ => rfl⟩

/-- **C5**: for every configuration successfully predicted, the energy
returned by `image_pred` equals the sum over every atom `a1` and every
directed entry of `a1`'s neighbor list of the Morse pair energy with pair
parameters from the active combination rule; each directed entry
contributes exactly once with full weight (no half-share factor), so a
full symmetric neighbor list counts each unordered pair twice. -/
theorem claim5_energy_is_full_directed_sum {α : Type} [LinearOrderedField α]
    (ops : NumOps α) (paramsDict : String → Option (ElemParams α))
    (combo : Combo) (img : Image α) (E : α) (F : List (Vec3 α)) (n : Nat)
    (params : List (α × α × α))
    (h : image_pred ops paramsDict combo img = Except.ok (E, F, n))
    (hp : buildParams ops paramsDict img.symbols = Except.ok params) :
    E = ((List.range n).map (fun a1 =>
        ((img.nbrsOf a1).map
          (specPairEnergy ops combo params img.positions img.cell a1)).sum)).sum := by
  obtain ⟨hn, params2, hb2, hE, hFs, hFl⟩ := image_pred_ok h
  rw [hp] at hb2
  simp only [Except.ok.injEq] at hb2
  subst hb2
  exact hE

/-- Witness for C5: the two-H configuration `imgPair` under the sample
numerics evaluates to energy `-4`, which equals the directed double sum of
specification pair energies. -/
theorem claim5_witness :
    image_pred sOps dictH Combo.yang imgPair
        = Except.ok (-4, [(0, 0, 0), (0, 0, 0)], 2)
    ∧ buildParams sOps dictH imgPair.symbols
        = Except.ok [(1, 2, 1), (1, 2, 1)]
    ∧ (-4 : ℚ) = ((List.range 2).map (fun a1 =>
        ((imgPair.nbrsOf a1).map
          (specPairEnergy sOps Combo.yang [(1, 2, 1), (1, 2, 1)]
            imgPair.positions imgPair.cell a1)).sum)).sum := by
  have h1 : image_pred sOps dictH Combo.yang imgPair
      = Except.ok (-4, [(0, 0, 0), (0, 0, 0)], 2) := by
    simp only [image_pred, buildParams, dictH, pH, imgPair, sOps,
      show List.range 2 = [0, 1] from rfl, imageLoop, atomStep, pairLoop,
      pairContrib, look, comboParams, morsePairE, morseForceScalar, normSq,
      offsetDot, List.get?, List.getD, List.set, List.foldl,
      List.map, List.sum_cons, List.sum_nil, List.replicate, List.length]
    norm_num
  have h2 : buildParams sOps dictH imgPair.symbols
      = Except.ok [(1, 2, 1), (1, 2, 1)] := by
    simp only [imgPair, buildParams, dictH, pH, sOps]
    norm_num
  exact ⟨h1, h2, claim5_energy_is_full_directed_sum sOps dictH Combo.yang
    imgPair (-4) [(0, 0, 0), (0, 0, 0)] 2 [(1, 2, 1), (1, 2, 1)] h1 h2⟩

/-- **C6**: for every configuration with symmetric neighbor lists and zero
periodic offsets that `image_pred` predicts successfully, the returned
per-atom force rows sum exactly to the zero vector: each directed pair
contribution is subtracted from the reference atom's accumulator and added
to the neighbor's accumulator (morse.py lines 98-100), so the total is
preserved from the all-zero initialization.  (The code in fact guarantees
this for every successful prediction; the claim's symmetry and
no-periodic-offset hypotheses are not even needed.) -/
theorem claim6_forces_sum_zero {α : Type} [LinearOrderedField α]
    (ops : NumOps α) (paramsDict : String → Option (ElemParams α))
    (combo : Combo) (img : Image α) (E : α) (F : List (Vec3 α)) (n : Nat)
    (h : image_pred ops paramsDict combo img = Except.ok (E, F, n))
    (hoff : ∀ a1, a1 < n → ∀ p ∈ img.nbrsOf a1, p.2 = (0 : Vec3 Int))
    (hsym : ∀ a1, a1 < n → ∀ p ∈ img.nbrsOf a1, (a1, -p.2) ∈ img.nbrsOf p.1) :
    F.sum = 0 := by
  obtain ⟨hn, params2, hb2, hE, hFs, hFl⟩ := image_pred_ok h
  exact hFs

/-- Witness for C6: `imgPair` has symmetric neighbor lists with zero
offsets, and its predicted forces sum to the zero vector. -/
theorem claim6_witness :
    image_pred sOps dictH Combo.yang imgPair
        = Except.ok (-4, [(0, 0, 0), (0, 0, 0)], 2)
    ∧ (∀ a1, a1 < 2 → ∀ p ∈ imgPair.nbrsOf a1, p.2 = (0 : Vec3 Int))
    ∧ (∀ a1, a1 < 2 → ∀ p ∈ imgPair.nbrsOf a1, (a1, -p.2) ∈ imgPair.nbrsOf p.1)
    ∧ ([(0, 0, 0), (0, 0, 0)] : List (Vec3 ℚ)).sum = 0 := by
  have h1 : image_pred sOps dictH Combo.yang imgPair
      = Except.ok (-4, [(0, 0, 0), (0, 0, 0)], 2) := by
    simp only [image_pred, buildParams, dictH, pH, imgPair, sOps,
      show List.range 2 = [0, 1] from rfl, imageLoop, atomStep, pairLoop,
      pairContrib, look, comboParams, morsePairE, morseForceScalar, normSq,
      offsetDot, List.get?, List.getD, List.set, List.foldl,
      List.map, List.sum_cons, List.sum_nil, List.replicate, List.length]
    norm_num
  exact ⟨h1, by decide, by decide,
    claim6_forces_sum_zero sOps dictH Combo.yang imgPair (-4)
      [(0, 0, 0), (0, 0, 0)] 2 h1 (by decide) (by decide)⟩

/-- **C7**: for a pair of atoms with identical parameters
(`re1 = re2 = re`, `D1 = D2 = D`, `sig1 = sig2 = sig`, all nonzero), the
`yang` combination rule reduces to the element's own triple:
`2*D*D/(D+D) = D`, `(sig*sig)*(sig+sig)/(sig^2+sig^2) = sig`, and the
analogous formula gives `re` (self-combination identity law). -/
theorem claim7_yang_self_identity {α : Type} [LinearOrderedField α]
    (ops : NumOps α) (re D sig : α)
    (hre : re ≠ 0) (hD : D ≠ 0) (hsig : sig ≠ 0) :
    comboParams ops Combo.yang re D sig re D sig = (D, sig, re) := by
  have h1 : D + D ≠ 0 := by intro hc; exact hD (by linarith)
  have h2 : sig ^ 2 + sig ^ 2 ≠ 0 := by positivity
  have h3 : re ^ 2 + re ^ 2 ≠ 0 := by positivity
  simp only [comboParams, Prod.mk.injEq]
  refine ⟨?_, ?_, ?_⟩
  · rw [div_eq_iff h1]; ring
  · rw [div_eq_iff h2]; ring
  · rw [div_eq_iff h3]; ring

/-- Witness for C7: self-combination at the concrete triple
`(re, D, sig) = (2, 3, 5)`. -/
theorem claim7_witness :
    ((2 : ℚ) ≠ 0 ∧ (3 : ℚ) ≠ 0 ∧ (5 : ℚ) ≠ 0)
    ∧ comboParams sOps Combo.yang 2 3 5 2 3 5 = (3, 5, 2) :=
  ⟨⟨by norm_num, by norm_num, by norm_num⟩,
    claim7_yang_self_identity sOps 2 3 5 (by norm_num) (by norm_num) (by norm_num)⟩

/-- **C8**: when the pair separation `r` equals the combined equilibrium
distance `re` (so `r* = re*`), the pair energy computed by `image_pred`
(via `morsePairE`) is exactly `-D`, the well minimum, and the pair force
row (via `morseForceScalar`) is exactly the zero vector, for every
backend whose `exp` maps `0` to `1`. -/
theorem claim8_well_minimum {α : Type} [LinearOrderedField α]
    (ops : NumOps α) (hexp : ops.exp 0 = 1) (D sig re : α) :
    morsePairE ops D sig re re = -D
    ∧ ∀ dv : Vec3 α, morseForceScalar ops D sig re re • dv = 0 := by
  constructor
  · simp only [morsePairE, sub_self, mul_zero, neg_zero, hexp]
    ring
  · intro dv
    have hf : morseForceScalar ops D sig re re = 0 := by
      simp only [morseForceScalar, sub_self, mul_zero, neg_zero, hexp]
    rw [hf]
    obtain ⟨x, yz⟩ := dv
    obtain ⟨y, z⟩ := yz
    simp [Prod.smul_mk, smul_eq_mul]

/-- Witness for C8: at `D = 2`, `sig = 3`, `re = 5` and separation `r = 5`
the pair energy is `-2` and the force row vanishes. -/
theorem claim8_witness :
    sOps.exp 0 = 1
    ∧ morsePairE sOps 2 3 5 5 = -2
    ∧ morseForceScalar sOps 2 3 5 5 • ((1, 1, 1) : Vec3 ℚ) = 0 :=
  ⟨rfl, (claim8_well_minimum sOps rfl 2 3 5).1,
    (claim8_well_minimum sOps rfl 2 3 5).2 (1, 1, 1)⟩

/-- **C9**: `morse_pred` returns three sequences of the same length as its
input, in input order: position `i` holds exactly the `image_pred` result
of configuration `i`, and the atom count at position `i` is the number of
atoms (positions) of configuration `i`. -/
theorem claim9_batch_shapes {α : Type} [LinearOrderedField α]
    (ops : NumOps α) (paramsDict : String → Option (ElemParams α))
    (combo : Combo) (data : List (Image α)) (es : List α)
    (fs : List (List (Vec3 α))) (ns : List Nat)
    (h : morse_pred ops paramsDict combo data = Except.ok (es, fs, ns)) :
    es.length = data.length ∧ fs.length = data.length ∧ ns.length = data.length
    ∧ ∀ i, i < data.length →
        image_pred ops paramsDict combo (data.getD i dImg)
          = Except.ok (es.getD i 0, fs.getD i [], ns.getD i 0)
        ∧ ns.getD i 0 = (data.getD i dImg).positions.length := by
  unfold morse_pred at h
  obtain ⟨es1, fs1, ns1, h1, h2, h3, h4, h5, h6, h7⟩ := morseLoop_ok h
  dsimp only at h1 h2 h3
  simp only [List.nil_append] at h1 h2 h3
  subst h1
  subst h2
  subst h3
  refine ⟨h4, h5, h6, ?_⟩
  intro i hi
  refine ⟨h7 i hi, ?_⟩
  exact (image_pred_ok (h7 i hi)).1

/-- Witness for C9: the one-element batch `[imgPair]` returns the three
singleton sequences and the atom count of `imgPair`. -/
theorem claim9_witness :
    morse_pred sOps dictH Combo.yang [imgPair]
        = Except.ok ([-4], [[(0, 0, 0), (0, 0, 0)]], [2])
    ∧ ([(-4 : ℚ)]).length = 1
    ∧ image_pred sOps dictH Combo.yang imgPair
        = Except.ok (-4, [(0, 0, 0), (0, 0, 0)], 2)
    ∧ (2 : Nat) = imgPair.positions.length := by
  have h1 : image_pred sOps dictH Combo.yang imgPair
      = Except.ok (-4, [(0, 0, 0), (0, 0, 0)], 2) := by
    simp only [image_pred, buildParams, dictH, pH, imgPair, sOps,
      show List.range 2 = [0, 1] from rfl, imageLoop, atomStep, pairLoop,
      pairContrib, look, comboParams, morsePairE, morseForceScalar, normSq,
      offsetDot, List.get?, List.getD, List.set, List.foldl,
      List.map, List.sum_cons, List.sum_nil, List.replicate, List.length]
    norm_num
  have hm : morse_pred sOps dictH Combo.yang [imgPair]
      = Except.ok ([-4], [[(0, 0, 0), (0, 0, 0)]], [2]) := by
    unfold morse_pred morseLoop
    rw [h1]
    rfl
  have happ := claim9_batch_shapes sOps dictH Combo.yang [imgPair]
    [-4] [[(0, 0, 0), (0, 0, 0)]] [2] hm
  obtain ⟨hl1, hl2, hl3, hpt⟩ := happ
  obtain ⟨hp0, hn0⟩ := hpt 0 (by decide)
  exact ⟨hm, hl1, hp0, hn0⟩

/-- **C10**: an atom with an empty neighbor list contributes zero energy
and leaves the force accumulators unchanged (the `atomStep` identity), and
a configuration in which every atom has an empty neighbor list predicts
total energy `0`, an all-zero force row per atom, and its atom count. -/
theorem claim10_empty_neighbors {α : Type} [LinearOrderedField α] :
    (∀ (ops : NumOps α) (combo : Combo) (params : List (α × α × α))
      (positions : List (Vec3 α)) (cell : Mat3 α) (a1 : Nat) (E : α)
      (F : List (Vec3 α)), a1 < params.length → a1 < positions.length →
      atomStep ops combo params positions cell [] a1 (E, F) = Except.ok (E, F))
    ∧ ∀ (ops : NumOps α) (paramsDict : String → Option (ElemParams α))
        (combo : Combo) (img : Image α),
        (∀ s ∈ img.symbols, (paramsDict s).isSome = true) →
        img.symbols.length = img.positions.length →
        (∀ a1, a1 < img.positions.length → img.nbrsOf a1 = []) →
        image_pred ops paramsDict combo img
          = Except.ok (0, List.replicate img.positions.length 0,
              img.positions.length) := by
  constructor
  · intro ops combo params positions cell a1 E F h1 h2
    exact atomStep_empty ops combo params positions cell a1 E F h1 h2
  · intro ops paramsDict combo img hsome hlen hnbr
    obtain ⟨rows, hr, hrl⟩ := buildParams_ok ops paramsDict img.symbols hsome
    have hloop : imageLoop ops combo rows img.positions img.cell img.nbrsOf
        (List.range img.positions.length)
        (0, List.replicate img.positions.length 0)
        = Except.ok (0, List.replicate img.positions.length 0) := by
      apply imageLoop_id
      intro a1 ha1
      have ha1b : a1 < img.positions.length := List.mem_range.mp ha1
      rw [hnbr a1 ha1b]
      exact atomStep_empty ops combo rows img.positions img.cell a1 0
        (List.replicate img.positions.length 0)
        (by rw [hrl, hlen]; exact ha1b) ha1b
    unfold image_pred
    rw [hr]
    dsimp only
    rw [hloop]

/-- Witness for C10: the `atomStep` identity at a concrete one-atom state,
and the one-atom configuration `imgH0` with no neighbors predicting
`(0, [0], 1)`. -/
theorem claim10_witness :
    atomStep sOps Combo.yang [((1 : ℚ), 2, 1)] [((0 : ℚ), 0, 0)] 0 [] 0
        (5, [(1, 2, 3)]) = Except.ok (5, [(1, 2, 3)])
    ∧ image_pred sOps dictH Combo.yang imgH0
        = Except.ok (0, [((0 : ℚ), 0, 0)], 1) := by
  constructor
  · exact claim10_empty_neighbors.1 sOps Combo.yang [((1 : ℚ), 2, 1)]
      [((0 : ℚ), 0, 0)] 0 0 5 [(1, 2, 3)] (by decide) (by decide)
  · exact claim10_empty_neighbors.2 sOps dictH Combo.yang imgH0
      (by decide) rfl (fun a1 _ => rfl)
